import Mathlib

/-!
Verification of the room-synchronization core of a real-time collaborative
drawing canvas (server/server.ts).

The server keeps, per room, an ordered stroke log (`strokes : Stroke[]`), a
set of connected clients and a user directory, and dispatches inbound
websocket messages by their `type` tag.  The definitions below are a shallow
embedding of that code: arrays become lists, the backward `for` loop of the
`undo` case is expressed as a first-match scan over the reversed list,
`Array.prototype.find` becomes a first-match scan, and `JSON.stringify`
becomes a concrete serialization function (the claims only ever compare the
produced bytes for identity, never inspect their shape).
-/

set_option autoImplicit false

namespace Canvas

/-- `type Point = { x, y, t }` (numbers modelled as integers). -/
structure Point where
  x : Int
  y : Int
  t : Int
deriving DecidableEq

/-- `type Stroke = { id, userId, color, size, tool, points, tombstone? }`.
The optional `tombstone` field is only ever read in boolean position
(`!st.tombstone`, `st.tombstone`), so `undefined` and `false` coincide and it
is modelled as a `Bool` defaulting to `false`. -/
structure Stroke where
  id : String
  userId : String
  color : String
  size : Int
  tool : String
  points : List Point
  tombstone : Bool := false
deriving DecidableEq

/-- `type UserInfo = { username, color }`. -/
structure UserInfo where
  username : String
  color : String
deriving DecidableEq

/-- One websocket connection: `cid` is the object identity (JS `!==`),
`readyState` the connection state. -/
structure Client where
  cid : Nat
  readyState : Nat
deriving DecidableEq

/-- `WebSocket.OPEN`. -/
def WSOPEN : Nat := 1

/-- `type Room = { strokes, clients, users }`.  The client set is modelled as
a list without duplicates being required (membership is what the claims use),
the user `Map` as an insertion-ordered association list. -/
structure RoomState where
  strokes : List Stroke
  clients : List Client
  users : List (String × UserInfo)
deriving DecidableEq

/-! ### Stroke log operations (the `switch` cases mutating `room.strokes`) -/

/-- `case "op-begin": room.strokes.push({ ...m, points: [] })` at the level of
the structured stroke fields: the new record is appended at the end with an
empty points list. -/
def appendStroke (l : List Stroke) (s : Stroke) : List Stroke :=
  l ++ [{ s with points := [] }]

/-- `case "op-points": const s = room.strokes.find(st => st.id === m.id);
if (s) s.points.push(...m.pts)`.  `Array.prototype.find` scans from index 0
and returns the first match; if none exists nothing is mutated. -/
def extend (id : String) (pts : List Point) : List Stroke → List Stroke
  | [] => []
  | s :: rest =>
    if s.id = id then { s with points := s.points ++ pts } :: rest
    else s :: extend id pts rest

/-- First-match scan of the `undo` loop body: walking the strokes in scan
order, the first one with `!st.tombstone` is set to `tombstone = true` and the
loop `break`s; already-tombstoned strokes are passed over unchanged. -/
def tombstoneFirstVisible : List Stroke → List Stroke
  | [] => []
  | s :: rest =>
    if s.tombstone then s :: tombstoneFirstVisible rest
    else { s with tombstone := true } :: rest

/-- `case "undo": for (let i = room.strokes.length - 1; i >= 0; i--) ...`:
the loop scans from the newest entry backward, so it is the first-match scan
over the reversed log, reversed back. -/
def undoLast (l : List Stroke) : List Stroke :=
  (tombstoneFirstVisible l.reverse).reverse

/-- `case "redo": const t = room.strokes.find(st => st.tombstone);
if (t) t.tombstone = false`: first-match scan from the oldest entry forward. -/
def redoLast : List Stroke → List Stroke
  | [] => []
  | t :: rest =>
    if t.tombstone then { t with tombstone := false } :: rest
    else t :: redoLast rest

/-- `case "get-snapshot": ws.send(... room.strokes)`: the snapshot is the full
ordered stroke log, tombstoned records included. -/
def snapshot (l : List Stroke) : List Stroke := l

/-! ### Outbound messages and serialization

`broadcast` serializes its message argument once with `JSON.stringify` and
sends the resulting string.  `JSON.stringify` is modelled by a concrete
encoding of the outbound message values into strings; no claim inspects the
produced bytes beyond comparing them for identity. -/

inductive OutMsg where
  | presenceOut (users : Nat)
  | snapshotOut (strokes : List Stroke)
  | beginOut (stroke : Stroke)
  | pointOut (id : String) (pts : List Point)
  | endOut (id : String)
  | undoOut
  | redoOut
  | cursorOut (userId username color : String) (nx ny : Int)
  | usersOut (users : List (String × UserInfo))
deriving DecidableEq

def serializePoint (p : Point) : String :=
  "(" ++ toString p.x ++ "," ++ toString p.y ++ "," ++ toString p.t ++ ")"

def serializePoints (ps : List Point) : String :=
  "[" ++ String.intercalate "," (ps.map serializePoint) ++ "]"

def serializeStroke (s : Stroke) : String :=
  "(" ++ s.id ++ "," ++ s.userId ++ "," ++ s.color ++ "," ++ toString s.size
    ++ "," ++ s.tool ++ "," ++ serializePoints s.points ++ ","
    ++ (if s.tombstone then "true" else "false") ++ ")"

def serializeStrokes (l : List Stroke) : String :=
  "[" ++ String.intercalate "," (l.map serializeStroke) ++ "]"

def serializeUser (u : String × UserInfo) : String :=
  "(" ++ u.1 ++ "," ++ u.2.username ++ "," ++ u.2.color ++ ")"

def serializeOut : OutMsg → String
  | .presenceOut n => "presence(" ++ toString n ++ ")"
  | .snapshotOut l => "snapshot(" ++ serializeStrokes l ++ ")"
  | .beginOut s => "begin(" ++ serializeStroke s ++ ")"
  | .pointOut id pts => "point(" ++ id ++ "," ++ serializePoints pts ++ ")"
  | .endOut id => "end(" ++ id ++ ")"
  | .undoOut => "undo"
  | .redoOut => "redo"
  | .cursorOut uid un c nx ny =>
    "cursor(" ++ uid ++ "," ++ un ++ "," ++ c ++ "," ++ toString nx ++ ","
      ++ toString ny ++ ")"
  | .usersOut us => "users(" ++ String.intercalate "," (us.map serializeUser) ++ ")"

/-! ### Broadcast fan-out

`function broadcast(roomId, msg, except?) { const raw = JSON.stringify(msg);
for (const ws of room.clients) { if (ws !== except && ws.readyState ===
WebSocket.OPEN) ws.send(raw); } }`.  The produced sends are returned as a
list of (recipient, bytes) pairs, in client-set iteration order.  When the
`except` parameter is absent (`none`), the JS comparison `ws !== undefined`
is true for every client. -/

def broadcastSends : List Client → String → Option Client → List (Client × String)
  | [], _, _ => []
  | ws :: rest, raw, except =>
    if some ws ≠ except ∧ ws.readyState = WSOPEN then
      (ws, raw) :: broadcastSends rest raw except
    else broadcastSends rest raw except

def broadcast (clients : List Client) (msg : OutMsg) (except : Option Client) :
    List (Client × String) :=
  broadcastSends clients (serializeOut msg) except

/-! ### The websocket message handler

`ws.on("message", raw => { let m = {}; try { m = JSON.parse(raw) } catch {};
switch (m.type) { ... } })`.  A failed parse leaves `m = {}` whose `type` is
`undefined`, which matches no `case` of the `switch` (there is no `default`),
exactly like a message with an unrecognized `type` string; both are modelled
below.  A parsed inbound message is one of the eight handled shapes or
`unknown` (any other `type` value). -/

inductive InMsg where
  | getSnapshot
  | opBegin (s : Stroke)
  | opPoints (id : String) (pts : List Point)
  | opEnd (id : String)
  | undoIn
  | redoIn
  | cursorIn (userId username color : String) (nx ny : Int)
  | helloIn (userId username color : String)
  | unknown
deriving DecidableEq

/-- `room.users.set(m.userId, { username, color })`: a JS `Map.set` keeps the
insertion position of an existing key and appends a new key at the end. -/
def setUser : List (String × UserInfo) → String → UserInfo → List (String × UserInfo)
  | [], uid, info => [(uid, info)]
  | (k, v) :: rest, uid, info =>
    if k = uid then (uid, info) :: rest
    else (k, v) :: setUser rest uid info

/-- One `switch` dispatch of the message handler for a successfully parsed
message `m`, sent by `sender` into a room in state `room`: returns the new
room state and the list of (recipient, bytes) sends it performs (both the
direct `ws.send` answer of `get-snapshot` and the `broadcast` fan-outs). -/
def handleParsed (room : RoomState) (sender : Client) :
    InMsg → RoomState × List (Client × String)
  | .getSnapshot =>
    (room, [(sender, serializeOut (.snapshotOut (snapshot room.strokes)))])
  | .opBegin s =>
    ({ room with strokes := appendStroke room.strokes s },
      broadcast room.clients (.beginOut { s with points := [] }) (some sender))
  | .opPoints id pts =>
    ({ room with strokes := extend id pts room.strokes },
      broadcast room.clients (.pointOut id pts) (some sender))
  | .opEnd id =>
    (room, broadcast room.clients (.endOut id) (some sender))
  | .undoIn =>
    ({ room with strokes := undoLast room.strokes },
      broadcast room.clients .undoOut none)
  | .redoIn =>
    ({ room with strokes := redoLast room.strokes },
      broadcast room.clients .redoOut none)
  | .cursorIn uid un c nx ny =>
    (room, broadcast room.clients (.cursorOut uid un c nx ny) (some sender))
  | .helloIn uid un c =>
    ({ room with users := setUser room.users uid ⟨un, c⟩ },
      broadcast room.clients (.usersOut (setUser room.users uid ⟨un, c⟩)) none)
  | .unknown => (room, [])

/-- The full `"message"` callback: `none` is a raw payload on which
`JSON.parse` threw (so `m = {}` and the `switch` matches nothing). -/
def handleMessage (room : RoomState) (sender : Client) :
    Option InMsg → RoomState × List (Client × String)
  | none => (room, [])
  | some m => handleParsed room sender m

/-! ### Interleaved log operations (for the append-order invariant)

The four message kinds that touch `room.strokes` at all, as a sequence of
operations applied to the log. -/

inductive LogOp where
  | beginOp (s : Stroke)
  | pointsOp (id : String) (pts : List Point)
  | undoOp
  | redoOp
deriving DecidableEq

def applyLogOp (l : List Stroke) : LogOp → List Stroke
  | .beginOp s => appendStroke l s
  | .pointsOp id pts => extend id pts l
  | .undoOp => undoLast l
  | .redoOp => redoLast l

def applyLogOps (l : List Stroke) (ops : List LogOp) : List Stroke :=
  ops.foldl applyLogOp l

/-- The id that a log operation appends, when it is an append. -/
def beginId : LogOp → Option String
  | .beginOp s => some s.id
  | _ => none

/-! ### JSON-object level model of the `op-begin` record

`room.strokes.push({ ...m, points: [] })` spreads the *entire parsed message
object* `m` and then overrides `points`: every field of `m` other than
`points` — including the protocol fields `type` and `boardId` — lands in the
stored record, which `get-snapshot` later returns verbatim.  To state this
field-level fact the parsed message is modelled as a JSON object: an
association list of distinct keys (what `JSON.parse` produces) to values. -/

inductive JVal where
  | jstr (s : String)
  | jnum (n : Int)
  | jbool (b : Bool)
  | jnull
  | jarr (xs : List JVal)
  | jobj (fields : List (String × JVal))

/-- Property read `o[k]` on a JS object. -/
def getKey : List (String × JVal) → String → Option JVal
  | [], _ => none
  | (k', v) :: rest, k => if k' = k then some v else getKey rest k

/-- `{ ...m, k: v }`: the key keeps its position if already present in `m`,
otherwise it is appended at the end. -/
def setKey : List (String × JVal) → String → JVal → List (String × JVal)
  | [], k, v => [(k, v)]
  | (k', v') :: rest, k, v =>
    if k' = k then (k, v) :: rest
    else (k', v') :: setKey rest k v

/-- The record pushed by `op-begin`: `{ ...m, points: [] }`. -/
def beginRecord (m : List (String × JVal)) : List (String × JVal) :=
  setKey m "points" (JVal.jarr [])

/-- `op-begin` at the JSON level: push the spread record onto the log. -/
def opBeginJson (strokes : List (List (String × JVal)))
    (m : List (String × JVal)) : List (List (String × JVal)) :=
  strokes ++ [beginRecord m]

/-- `get-snapshot` at the JSON level returns the stored records verbatim. -/
def snapshotJson (strokes : List (List (String × JVal))) :
    List (List (String × JVal)) :=
  strokes

/-! ### Concrete instances used by counterexamples and witnesses -/

def cxPoint : Point := ⟨1, 1, 100⟩

/-- Two distinct strokes sharing the id "a" (a client id collision). -/
def cxStrokeA1 : Stroke := ⟨"a", "u1", "red", 3, "brush", [], false⟩

def cxStrokeA2 : Stroke := ⟨"a", "u2", "blue", 3, "brush", [], false⟩

/-- An already-tombstoned older stroke. -/
def cxStrokeB1 : Stroke := ⟨"b1", "u1", "red", 3, "brush", [], true⟩

/-- A visible newer stroke. -/
def cxStrokeB2 : Stroke := ⟨"b2", "u1", "red", 3, "brush", [], false⟩

def cxVisible1 : Stroke := ⟨"v1", "u1", "red", 3, "brush", [], false⟩

def cxVisible2 : Stroke := ⟨"v2", "u2", "blue", 2, "brush", [], false⟩

def cxTomb1 : Stroke := ⟨"t1", "u1", "red", 3, "brush", [], true⟩

def wOpenClient : Client := ⟨0, 1⟩

def wClosedClient : Client := ⟨1, 3⟩

def wSender : Client := ⟨2, 1⟩

def wRoom : RoomState := ⟨[cxStrokeB2], [wOpenClient, wClosedClient, wSender], []⟩

/-! ## Helper lemmas -/

/-- A scan over an all-tombstoned list finds no visible stroke and changes
nothing. -/
theorem tombstoneFirstVisible_of_all_tombstoned (l : List Stroke)
    (h : ∀ s ∈ l, s.tombstone = true) : tombstoneFirstVisible l = l := by
  induction l with
  | nil => rfl
  | cons s rest ih =>
    have hs := h s (List.mem_cons_self s rest)
    have hr := ih fun u hu => h u (List.mem_cons_of_mem s hu)
    simp [tombstoneFirstVisible, hs, hr]

/-- The scan passes over an all-tombstoned initial segment and stops at the
first visible stroke. -/
theorem tombstoneFirstVisible_append (a : List Stroke) (s : Stroke)
    (b : List Stroke) (ha : ∀ u ∈ a, u.tombstone = true)
    (hs : s.tombstone = false) :
    tombstoneFirstVisible (a ++ s :: b) = a ++ { s with tombstone := true } :: b := by
  induction a with
  | nil => simp [tombstoneFirstVisible, hs]
  | cons u rest ih =>
    have hu := ha u (List.mem_cons_self u rest)
    have hr := ih fun v hv => ha v (List.mem_cons_of_mem u hv)
    simp [tombstoneFirstVisible, hu, hr]

/-- Every stroke list is either all-tombstoned or splits at its first visible
stroke. -/
theorem exists_first_visible_split (l : List Stroke) :
    (∀ s ∈ l, s.tombstone = true) ∨
      ∃ a s b, l = a ++ s :: b ∧ (∀ u ∈ a, u.tombstone = true) ∧
        s.tombstone = false := by
  induction l with
  | nil => exact Or.inl (by intro s hs; cases hs)
  | cons s rest ih =>
    cases hst : s.tombstone with
    | false =>
      exact Or.inr ⟨[], s, rest, rfl,
        ⟨fun u hu => absurd hu (List.not_mem_nil u), hst⟩⟩
    | true =>
      cases ih with
      | inl h =>
        refine Or.inl fun u hu => ?_
        rcases List.mem_cons.mp hu with h1 | h2
        · rw [h1]; exact hst
        · exact h u h2
      | inr h =>
        rcases h with ⟨a, t, b, heq, ha, ht⟩
        refine Or.inr ⟨s :: a, t, b, by rw [heq]; rfl, ?_, ht⟩
        intro u hu
        rcases List.mem_cons.mp hu with h1 | h2
        · rw [h1]; exact hst
        · exact ha u h2

/-- The forward scan of `redoLast` passes over an all-visible initial segment
and stops at the first tombstoned stroke. -/
theorem redoLast_append (a : List Stroke) (t : Stroke) (b : List Stroke)
    (ha : ∀ u ∈ a, u.tombstone = false) (ht : t.tombstone = true) :
    redoLast (a ++ t :: b) = a ++ { t with tombstone := false } :: b := by
  induction a with
  | nil => simp [redoLast, ht]
  | cons u rest ih =>
    have hu := ha u (List.mem_cons_self u rest)
    have hr := ih fun v hv => ha v (List.mem_cons_of_mem u hv)
    simp [redoLast, hu, hr]

/-- Overwriting the tombstone field with the value it already has is the
identity. -/
theorem stroke_set_tombstone_self (s : Stroke) (h : s.tombstone = false) :
    { s with tombstone := false } = s := by
  cases s
  simp_all

/-- `extend` on a log with no matching id changes nothing. -/
theorem extend_of_no_match (id : String) (pts : List Point) (l : List Stroke)
    (h : ∀ s ∈ l, s.id ≠ id) : extend id pts l = l := by
  induction l with
  | nil => rfl
  | cons s rest ih =>
    have hs := h s (List.mem_cons_self s rest)
    have hr := ih fun u hu => h u (List.mem_cons_of_mem s hu)
    simp [extend, hs, hr]

/-- `extend` preserves the sequence of stroke ids. -/
theorem extend_map_id (id : String) (pts : List Point) (l : List Stroke) :
    (extend id pts l).map Stroke.id = l.map Stroke.id := by
  induction l with
  | nil => rfl
  | cons s rest ih =>
    by_cases h : s.id = id
    · simp [extend, h]
    · simp [extend, h, ih]

/-- The undo scan preserves the sequence of stroke ids. -/
theorem tombstoneFirstVisible_map_id (l : List Stroke) :
    (tombstoneFirstVisible l).map Stroke.id = l.map Stroke.id := by
  induction l with
  | nil => rfl
  | cons s rest ih =>
    cases h : s.tombstone with
    | true => simp [tombstoneFirstVisible, h, ih]
    | false => simp [tombstoneFirstVisible, h]

/-- `undoLast` preserves the sequence of stroke ids. -/
theorem undoLast_map_id (l : List Stroke) :
    (undoLast l).map Stroke.id = l.map Stroke.id := by
  unfold undoLast
  rw [List.map_reverse, tombstoneFirstVisible_map_id, ← List.map_reverse,
    List.reverse_reverse]

/-- `redoLast` preserves the sequence of stroke ids. -/
theorem redoLast_map_id (l : List Stroke) :
    (redoLast l).map Stroke.id = l.map Stroke.id := by
  induction l with
  | nil => rfl
  | cons s rest ih =>
    cases h : s.tombstone with
    | true => simp [redoLast, h]
    | false => simp [redoLast, h, ih]

/-- Running any sequence of log operations: the id sequence of the resulting
log is the starting id sequence followed by the appended ids in arrival
order. -/
theorem applyLogOps_map_id (ops : List LogOp) (l : List Stroke) :
    (applyLogOps l ops).map Stroke.id =
      l.map Stroke.id ++ ops.filterMap beginId := by
  induction ops generalizing l with
  | nil => simp [applyLogOps]
  | cons op rest ih =>
    rw [show applyLogOps l (op :: rest) = applyLogOps (applyLogOp l op) rest
      from rfl, ih]
    cases op with
    | beginOp s => simp [applyLogOp, appendStroke, beginId, List.filterMap_cons]
    | pointsOp id pts =>
      simp [applyLogOp, beginId, extend_map_id, List.filterMap_cons]
    | undoOp => simp [applyLogOp, beginId, undoLast_map_id, List.filterMap_cons]
    | redoOp => simp [applyLogOp, beginId, redoLast_map_id, List.filterMap_cons]

/-- The broadcast loop keeps exactly the open, non-excluded clients, pairing
each with the single serialized payload. -/
theorem broadcastSends_eq_filter (clients : List Client) (raw : String)
    (except : Option Client) :
    broadcastSends clients raw except =
      (clients.filter fun ws =>
        decide (some ws ≠ except) && decide (ws.readyState = WSOPEN)).map
        fun ws => (ws, raw) := by
  induction clients with
  | nil => rfl
  | cons ws rest ih =>
    by_cases h1 : some ws ≠ except
    · by_cases h2 : ws.readyState = WSOPEN
      · simp [broadcastSends, List.filter_cons, h1, h2, ih]
      · simp [broadcastSends, List.filter_cons, h1, h2, ih]
    · simp [broadcastSends, List.filter_cons, h1, ih]

/-- Reading a key after `setKey`: the written key has the new value and every
other key is untouched. -/
theorem getKey_setKey (m : List (String × JVal)) (k q : String) (v : JVal) :
    getKey (setKey m k v) q = if q = k then some v else getKey m q := by
  induction m with
  | nil =>
    by_cases h : q = k
    · simp [setKey, getKey, h]
    · have h2 : ¬k = q := fun hh => h hh.symm
      simp [setKey, getKey, h, h2]
  | cons p rest ih =>
    rcases p with ⟨a, w⟩
    by_cases hak : a = k
    · by_cases hq : q = k
      · simp [setKey, getKey, hak, hq]
      · have h2 : ¬k = q := fun hh => hq hh.symm
        have h3 : ¬a = q := fun hh => hq (hak ▸ hh).symm
        simp [setKey, getKey, hak, hq, h2, h3]
    · by_cases haq : a = q
      · have h2 : ¬q = k := fun hh => hak (haq.symm ▸ hh)
        simp [setKey, getKey, hak, haq, h2]
      · simp [setKey, getKey, hak, haq, ih]

/-! ## Claims -/

/-- C1, counterexample: on a log holding two strokes that share the id "a",
`extend` appends the points to the EARLIER stroke (`Array.prototype.find`
scans from index 0), not to the most recently appended one as the claim
states: the log the code produces differs from the log the claim requires. -/
theorem extend_most_recent_counterexample :
    extend "a" [cxPoint] [cxStrokeA1, cxStrokeA2] =
      [{ cxStrokeA1 with points := [cxPoint] }, cxStrokeA2] ∧
    extend "a" [cxPoint] [cxStrokeA1, cxStrokeA2] ≠
      [cxStrokeA1, { cxStrokeA2 with points := [cxPoint] }] := by
  decide

/-- C1, amended: when several strokes share an id, `extend(id, points)`
appends the given points to the EARLIEST appended stroke with that id (first
match in scan order from the start of the log), leaving all others
unchanged. -/
theorem extend_appends_to_first_match (id : String) (pts : List Point)
    (l₁ : List Stroke) (s : Stroke) (l₂ : List Stroke)
    (h₁ : ∀ u ∈ l₁, u.id ≠ id) (hs : s.id = id) :
    extend id pts (l₁ ++ s :: l₂) =
      l₁ ++ { s with points := s.points ++ pts } :: l₂ := by
  induction l₁ with
  | nil => simp [extend, hs]
  | cons u rest ih =>
    have hu := h₁ u (List.mem_cons_self u rest)
    have hr := ih fun v hv => h₁ v (List.mem_cons_of_mem u hv)
    simp [extend, hu, hr]

/-- Witness for C1, amended: a concrete log with a non-matching stroke in
front of the matching one. -/
theorem extend_appends_to_first_match_witness :
    extend "a" [cxPoint] ([cxStrokeB1] ++ cxStrokeA1 :: [cxStrokeA2]) =
      [cxStrokeB1] ++
        { cxStrokeA1 with points := cxStrokeA1.points ++ [cxPoint] } ::
        [cxStrokeA2] :=
  extend_appends_to_first_match "a" [cxPoint] [cxStrokeB1] cxStrokeA1
    [cxStrokeA2] (by decide) (by decide)

/-- C2, counterexample: on the log [b1 tombstoned, b2 visible], `undoLast`
tombstones b2 (so a stroke is visible before the call, as the claim
requires), but the immediately following `redoLast` un-tombstones the OLDER
b1, not b2: the round trip does not restore the pre-undo tombstone state. -/
theorem undo_redo_roundtrip_counterexample :
    (∃ u ∈ [cxStrokeB1, cxStrokeB2], u.tombstone = false) ∧
    redoLast (undoLast [cxStrokeB1, cxStrokeB2]) ≠ [cxStrokeB1, cxStrokeB2] := by
  decide

/-- C2, amended: `undoLast` immediately followed by `redoLast` restores the
pre-undo tombstone state provided that, before the undo, no stroke older
than the stroke the undo tombstones was itself already tombstoned (the log
splits into an all-visible initial segment, the last visible stroke, and an
all-tombstoned tail). -/
theorem undo_redo_roundtrip_no_older_tombstone (l₁ : List Stroke) (s : Stroke)
    (l₂ : List Stroke) (h₁ : ∀ u ∈ l₁, u.tombstone = false)
    (hs : s.tombstone = false) (h₂ : ∀ u ∈ l₂, u.tombstone = true) :
    redoLast (undoLast (l₁ ++ s :: l₂)) = l₁ ++ s :: l₂ := by
  obtain ⟨i, u, c, z, t, p, tb⟩ := s
  simp only [Stroke.tombstone] at hs
  subst hs
  have hrev : (l₁ ++ (⟨i, u, c, z, t, p, false⟩ : Stroke) :: l₂).reverse =
      l₂.reverse ++ (⟨i, u, c, z, t, p, false⟩ : Stroke) :: l₁.reverse := by
    simp [List.reverse_append]
  have hund : undoLast (l₁ ++ (⟨i, u, c, z, t, p, false⟩ : Stroke) :: l₂) =
      l₁ ++ (⟨i, u, c, z, t, p, true⟩ : Stroke) :: l₂ := by
    unfold undoLast
    rw [hrev, tombstoneFirstVisible_append l₂.reverse _ l₁.reverse
      (fun u hu => h₂ u (List.mem_reverse.mp hu)) rfl]
    simp [List.reverse_append]
  rw [hund, redoLast_append l₁ (⟨i, u, c, z, t, p, true⟩ : Stroke) l₂ h₁ rfl]

/-- Witness for C2, amended: [v1 visible, v2 visible, t1 tombstoned] —
undo tombstones v2, redo restores v2. -/
theorem undo_redo_roundtrip_no_older_tombstone_witness :
    redoLast (undoLast ([cxVisible1] ++ cxVisible2 :: [cxTomb1])) =
      [cxVisible1] ++ cxVisible2 :: [cxTomb1] :=
  undo_redo_roundtrip_no_older_tombstone [cxVisible1] cxVisible2 [cxTomb1]
    (by decide) (by decide) (by decide)

/-- C3: for every stroke log, `undoLast` either finds every stroke already
tombstoned (or the log empty) and returns the log unchanged, or the log
splits as `a ++ s :: b` with `s` the newest visible stroke (everything after
it tombstoned), and `undoLast` sets exactly that one tombstone flag, leaving
`a` and `b` untouched. -/
theorem undoLast_tombstones_newest_visible (l : List Stroke) :
    (l.all (fun s => s.tombstone) = true ∧ undoLast l = l) ∨
    (∃ a s b, l = a ++ s :: b ∧ s.tombstone = false ∧
      b.all (fun u => u.tombstone) = true ∧
      undoLast l = a ++ { s with tombstone := true } :: b) := by
  rcases exists_first_visible_split l.reverse with h | ⟨a, s, b, heq, ha, hs⟩
  · refine Or.inl ⟨?_, ?_⟩
    · rw [List.all_eq_true]
      intro u hu
      exact h u (List.mem_reverse.mpr hu)
    · unfold undoLast
      rw [tombstoneFirstVisible_of_all_tombstoned l.reverse h,
        List.reverse_reverse]
  · have hl : l = b.reverse ++ s :: a.reverse := by
      have h2 := congrArg List.reverse heq
      rw [List.reverse_reverse] at h2
      rw [h2]
      simp [List.reverse_append]
    have hu : undoLast l = b.reverse ++ { s with tombstone := true } :: a.reverse := by
      unfold undoLast
      rw [heq, tombstoneFirstVisible_append a s b ha hs]
      simp [List.reverse_append]
    refine Or.inr ⟨b.reverse, s, a.reverse, hl, hs, ?_, hu⟩
    rw [List.all_eq_true]
    intro u hu2
    exact ha u (List.mem_reverse.mp hu2)

/-- C4: for every stroke log, `redoLast` either finds no tombstoned stroke
and returns the log unchanged, or the log splits as `a ++ s :: b` with `s`
the oldest tombstoned stroke (everything before it visible), and `redoLast`
clears exactly that one tombstone flag, leaving `a` and `b` untouched. -/
theorem redoLast_restores_oldest_tombstoned (l : List Stroke) :
    (l.all (fun s => !s.tombstone) = true ∧ redoLast l = l) ∨
    (∃ a s b, l = a ++ s :: b ∧ s.tombstone = true ∧
      a.all (fun u => !u.tombstone) = true ∧
      redoLast l = a ++ { s with tombstone := false } :: b) := by
  induction l with
  | nil => exact Or.inl ⟨rfl, rfl⟩
  | cons t rest ih =>
    cases hts : t.tombstone with
    | true =>
      refine Or.inr ⟨[], t, rest, rfl, hts, rfl, ?_⟩
      simp [redoLast, hts]
    | false =>
      rcases ih with ⟨hall, heq⟩ | ⟨a, s, b, heq, hs, ha, hred⟩
      · refine Or.inl ⟨?_, ?_⟩
        · simp [List.all_cons, hts, hall]
        · simp [redoLast, hts, heq]
      · refine Or.inr ⟨t :: a, s, b, by rw [heq]; rfl, hs, ?_, ?_⟩
        · simp [List.all_cons, hts, ha]
        · simp [redoLast, hts, hred]

/-- C5: starting from an empty log, after any interleaving of append
(`op-begin`), extend (`op-points`), `undoLast` and `redoLast` operations,
the snapshot holds exactly one stroke record per append, and their id
sequence is the appended ids in arrival order: extend/undo/redo never add,
remove or reorder records. -/
theorem snapshot_preserves_append_order (ops : List LogOp) :
    (snapshot (applyLogOps [] ops)).map Stroke.id = ops.filterMap beginId ∧
    (snapshot (applyLogOps [] ops)).length = (ops.filterMap beginId).length := by
  have h := applyLogOps_map_id ops []
  constructor
  · simpa [snapshot] using h
  · have h2 := congrArg List.length h
    simpa [snapshot] using h2

/-- C6: `broadcast` serializes the message once and the produced sends are
exactly one copy of those identical bytes to each client of the room whose
connection is OPEN and which is not the excluded one, in client-set order:
the excluded session and non-open sessions are skipped without error. -/
theorem broadcast_delivers_open_except (clients : List Client) (msg : OutMsg)
    (except : Option Client) :
    broadcast clients msg except =
      (clients.filter fun ws =>
        decide (some ws ≠ except) && decide (ws.readyState = WSOPEN)).map
        fun ws => (ws, serializeOut msg) :=
  broadcastSends_eq_filter clients (serializeOut msg) except

/-- C7: an `op-points` message whose id matches no stroke in the log leaves
the log completely unchanged — no points applied anywhere, no stroke
implicitly created (and, the operation being total, no error is raised). -/
theorem extend_unknown_id_noop (id : String) (pts : List Point)
    (l : List Stroke) (h : ∀ s ∈ l, s.id ≠ id) : extend id pts l = l :=
  extend_of_no_match id pts l h

/-- Witness for C7: extending with id "s1" on a log holding only id "b2". -/
theorem extend_unknown_id_noop_witness :
    extend "s1" [cxPoint] [cxStrokeB2] = [cxStrokeB2] :=
  extend_unknown_id_noop "s1" [cxPoint] [cxStrokeB2] (by decide)

/-- C8: a raw payload on which parsing throws (`none`), and a parsed message
whose type tag matches no handled case (`InMsg.unknown`), are both dropped
silently: the room state (stroke log, client set, user directory) is
returned unchanged and not a single send is produced. -/
theorem malformed_or_unknown_type_dropped (room : RoomState) (sender : Client) :
    handleMessage room sender none = (room, []) ∧
    handleMessage room sender (some InMsg.unknown) = (room, []) :=
  ⟨rfl, rfl⟩

/-- C9: the record pushed by `op-begin` is `{ ...m, points: [] }`: reading
any key of the stored record gives the empty array for "points" and the
value from the inbound message `m` for every other key — so the protocol
fields "type" and "boardId", when present in `m`, are stored too — and the
record is returned verbatim by the next snapshot. -/
theorem opBegin_record_spreads_message (S : List (List (String × JVal)))
    (m : List (String × JVal)) (q : String) :
    getKey (beginRecord m) q =
      (if q = "points" then some (JVal.jarr []) else getKey m q) ∧
    beginRecord m ∈ snapshotJson (opBeginJson S m) := by
  refine ⟨getKey_setKey m "points" q (JVal.jarr []), ?_⟩
  simp [snapshotJson, opBeginJson]

/-- C10: the `op-points` handler broadcasts `point(id, pts)` to every open
client except the sender unconditionally — the sends do not depend on the
stroke log at all — and when no stroke carries the id, the room state is
additionally left unchanged. -/
theorem opPoints_broadcast_unconditional (room : RoomState) (sender : Client)
    (id : String) (pts : List Point) :
    (handleParsed room sender (InMsg.opPoints id pts)).2 =
      (room.clients.filter fun ws =>
        decide (some ws ≠ some sender) && decide (ws.readyState = WSOPEN)).map
        (fun ws => (ws, serializeOut (OutMsg.pointOut id pts))) ∧
    ((∀ s ∈ room.strokes, s.id ≠ id) →
      (handleParsed room sender (InMsg.opPoints id pts)).1 = room) := by
  constructor
  · exact broadcastSends_eq_filter room.clients
      (serializeOut (OutMsg.pointOut id pts)) (some sender)
  · intro h
    show ({ room with strokes := extend id pts room.strokes } : RoomState) = room
    rw [extend_of_no_match id pts room.strokes h]

/-- Witness for C10: a room whose single stroke has id "b2", receiving
points for the unknown id "nope"; the room state is unchanged. -/
theorem opPoints_broadcast_unconditional_witness :
    (handleParsed wRoom wSender (InMsg.opPoints "nope" [cxPoint])).1 = wRoom :=
  (opPoints_broadcast_unconditional wRoom wSender "nope" [cxPoint]).2
    (by decide)

end Canvas
